import Mathlib

/-!
Formal model of the LED pulse-measurement backend (led_ctrl_backend.py).

The backend drives a bench LED driver over a command channel.  We embed the
sequencing core shallowly: every instrument-facing operation (a SCPI write, a
SCPI query, or a one-second sleep) is an observable event, and the behaviour of
the external world (channel failures, operator interrupts, query replies) is an
oracle indexed by the running count of operations performed so far.

Currents, measured values and brightness percentages are modelled as rationals;
ON/OFF durations and the countdown are natural numbers of seconds, matching the
integer loop counts in run_sweep.  Python exceptions are modelled explicitly:
a rejected write or query raises a protocol error, division by zero in
set_pulse_parameters raises a zero-division error (Python float semantics), and
an operator interrupt (KeyboardInterrupt) is delivered at a sleeping wait point.
-/

namespace LedCtrl

/-- Observable events on the instrument channel, one constructor per SCPI
command family emitted by the backend, plus the one-second sleep. -/
inductive Ev where
  /-- write SOURce1:PULSe:BRIGhtness:LEVel:AMPLitude pct -/
  | brightness (pct : ℚ)
  /-- write SOURce1:PULSe:ONTime t -/
  | onTime (t : ℕ)
  /-- write SOURce1:PULSe:OFFTime t -/
  | offTime (t : ℕ)
  /-- write SOURce1:PULSe:COUNt 1 -/
  | count1
  /-- write OUTPut1:STATe ON -/
  | outputOn
  /-- write OUTPut1:STATe OFF -/
  | outputOff
  /-- query MEASure:CURRent:DC? answered with amps -/
  | measCurrQ (amps : ℚ)
  /-- query MEASure:VOLTage:DC? answered with volts -/
  | measVoltQ (volts : ℚ)
  /-- query OUTPut1:STATe? answered with a raw reply string -/
  | stateQ (reply : String)
  /-- time.sleep(1) completing normally -/
  | sleep
deriving DecidableEq

/-- Python exceptions other than KeyboardInterrupt that the backend can raise. -/
inductive PyErr where
  /-- a write was rejected or a query failed (VISA-level error) -/
  | protocol
  /-- ZeroDivisionError from current_ma / max_limit_ma -/
  | zeroDiv
deriving DecidableEq

/-- One per-step record: the data the spec calls a StepResult.  The source
prints these fields rather than collecting them; the record is complete once
the post-shutdown state query has answered. -/
structure StepRec where
  idx : ℕ
  target : ℚ
  measI : ℚ
  measV : ℚ
  status : String
deriving DecidableEq

/-- Kernel state threaded through a run: the count of operations performed so
far (indexing the oracle), the physical output state, and the completed step
records. -/
structure K where
  n : ℕ
  out : Bool
  recs : List StepRec
deriving DecidableEq

/-- Behaviour of the external world.  fails m: the m-th channel operation
raises a protocol error; intr m: a KeyboardInterrupt is delivered if the m-th
operation is a sleep; qnum m / qstr m: the reply if the m-th operation is a
numeric / string query. -/
structure World where
  fails : ℕ → Bool
  intr : ℕ → Bool
  qnum : ℕ → ℚ
  qstr : ℕ → String

/-- Result of running a fragment of the backend: normal return with the events
emitted and a value, a KeyboardInterrupt in flight, or a Python error in
flight. -/
inductive R (α : Type) where
  | ok (t : List Ev) (k : K) (a : α)
  | intr (t : List Ev) (k : K)
  | err (t : List Ev) (k : K) (e : PyErr)
deriving DecidableEq

/-- Sequential composition: events accumulate, exceptions propagate. -/
def bindM {α β : Type} (m : K → R α) (f : α → K → R β) : K → R β := fun k =>
  match m k with
  | .ok t k1 a =>
    match f a k1 with
    | .ok t2 k2 b => .ok (t ++ t2) k2 b
    | .intr t2 k2 => .intr (t ++ t2) k2
    | .err t2 k2 e => .err (t ++ t2) k2 e
  | .intr t k1 => .intr t k1
  | .err t k1 e => .err t k1 e

/-- Return without touching the channel. -/
def pureM {α : Type} (a : α) : K → R α := fun k => .ok [] k a

/-- Effect of a successful write on the physical output state. -/
def evEffect : Ev → Bool → Bool
  | .outputOn, _ => true
  | .outputOff, _ => false
  | _, b => b

/-- inst.write(cmd): raises a protocol error when the channel rejects it,
otherwise emits the event and applies its effect. -/
def writeOp (w : World) (e : Ev) : K → R Unit := fun k =>
  if w.fails k.n then .err [] ⟨k.n + 1, k.out, k.recs⟩ .protocol
  else .ok [e] ⟨k.n + 1, evEffect e k.out, k.recs⟩ ()

/-- float(inst.query(cmd)): numeric query, reply drawn from the oracle. -/
def numQueryOp (w : World) (mk : ℚ → Ev) : K → R ℚ := fun k =>
  if w.fails k.n then .err [] ⟨k.n + 1, k.out, k.recs⟩ .protocol
  else .ok [mk (w.qnum k.n)] ⟨k.n + 1, k.out, k.recs⟩ (w.qnum k.n)

/-- inst.query for the output state: string reply drawn from the oracle. -/
def strQueryOp (w : World) : K → R String := fun k =>
  if w.fails k.n then .err [] ⟨k.n + 1, k.out, k.recs⟩ .protocol
  else .ok [.stateQ (w.qstr k.n)] ⟨k.n + 1, k.out, k.recs⟩ (w.qstr k.n)

/-- time.sleep(1): a KeyboardInterrupt pending at this point aborts the sleep. -/
def sleepOp (w : World) : K → R Unit := fun k =>
  if w.intr k.n then .intr [] ⟨k.n + 1, k.out, k.recs⟩
  else .ok [.sleep] ⟨k.n + 1, k.out, k.recs⟩ ()

/-- A countdown loop of m one-second sleeps (for t in range(m, 0, -1)). -/
def sleepN (w : World) : ℕ → K → R Unit
  | 0 => pureM ()
  | m + 1 => bindM (sleepOp w) (fun _ => sleepN w m)

/-- Append a completed step record. -/
def recordOp (r : StepRec) : K → R Unit := fun k =>
  .ok [] ⟨k.n, k.out, k.recs ++ [r]⟩ ()

/-- The four writes of set_pulse_parameters, after the percentage has been
computed. -/
def pulse_writes (w : World) (onT offT : ℕ) (maxL curr : ℚ) : K → R Unit :=
  bindM (writeOp w (.brightness (curr / maxL * 100))) (fun _ =>
  bindM (writeOp w (.onTime onT)) (fun _ =>
  bindM (writeOp w (.offTime offT)) (fun _ =>
  writeOp w .count1)))

/-- set_pulse_parameters: pct = (current_ma / max_limit_ma) * 100, then the
amplitude, ON-time, OFF-time and count writes.  In Python the division raises
ZeroDivisionError when max_limit_ma = 0, before any write; no range validation
of any kind is performed. -/
def set_pulse_parameters (w : World) (onT offT : ℕ) (maxL curr : ℚ) :
    K → R Unit := fun k =>
  if maxL = 0 then R.err [] k .zeroDiv
  else pulse_writes w onT offT maxL curr k

/-- fire_pulse: write OUTPut1:STATe ON. -/
def fire_pulse (w : World) : K → R Unit := writeOp w .outputOn

/-- measure: query DC current (converted amps to mA) and DC voltage. -/
def measure (w : World) : K → R (ℚ × ℚ) :=
  bindM (numQueryOp w Ev.measCurrQ) (fun iRaw =>
  bindM (numQueryOp w Ev.measVoltQ) (fun v =>
  pureM (iRaw * 1000, v)))

/-- turn_off: write OUTPut1:STATe OFF. -/
def turn_off (w : World) : K → R Unit := writeOp w .outputOff

/-- Model of Python str.strip(): remove leading and trailing whitespace. -/
def pyStrip (s : String) : String :=
  ⟨((s.data.dropWhile Char.isWhitespace).reverse.dropWhile Char.isWhitespace).reverse⟩

/-- The body of one iteration of the run_sweep loop, through the post-shutdown
status query: program, fire, settle one second, measure, hold the remaining
on_time - 1 seconds, turn off, query the state.  The completed record is
appended once its last field (the stripped status reply) exists. -/
def stepBody (w : World) (onT offT : ℕ) (maxL : ℚ) (idx : ℕ) (curr : ℚ) :
    K → R Unit :=
  bindM (set_pulse_parameters w onT offT maxL curr) (fun _ =>
  bindM (fire_pulse w) (fun _ =>
  bindM (sleepOp w) (fun _ =>
  bindM (measure w) (fun iv =>
  bindM (sleepN w (onT - 1)) (fun _ =>
  bindM (turn_off w) (fun _ =>
  bindM (strQueryOp w) (fun st =>
  recordOp ⟨idx, curr, iv.1, iv.2, pyStrip st⟩)))))))

/-- The run_sweep loop over the current list (enumerate starting at 1): each
iteration runs the step body and then the off_time countdown. -/
def sweepLoop (w : World) (onT offT : ℕ) (maxL : ℚ) :
    ℕ → List ℚ → K → R Unit
  | _, [] => pureM ()
  | idx, c :: cs =>
    bindM (stepBody w onT offT maxL idx c) (fun _ =>
    bindM (sleepN w offT) (fun _ =>
    sweepLoop w onT offT maxL (idx + 1) cs))

/-- How one invocation of run_sweep ends: falling off the loop normally,
returning from the KeyboardInterrupt handler, a KeyboardInterrupt propagating
uncaught, or a Python error propagating uncaught. -/
inductive Outcome where
  | completed
  | cancelled
  | raisedInterrupt
  | raisedError (e : PyErr)
deriving DecidableEq

/-- The observable result of one run_sweep invocation. -/
structure Res where
  trace : List Ev
  recs : List StepRec
  outcome : Outcome
deriving DecidableEq

/-- run_sweep: the initial countdown runs outside the try block, so an
interrupt there propagates; the loop runs inside try, and on KeyboardInterrupt
the handler turns the output off and queries the state before returning. -/
def run_sweep (w : World) (countdown onT offT : ℕ) (currents : List ℚ)
    (maxL : ℚ) (out0 : Bool) : Res :=
  match sleepN w countdown ⟨0, out0, []⟩ with
  | .intr t k => ⟨t, k.recs, .raisedInterrupt⟩
  | .err t k e => ⟨t, k.recs, .raisedError e⟩
  | .ok t k _ =>
    match sweepLoop w onT offT maxL 1 currents k with
    | .ok t2 k2 _ => ⟨t ++ t2, k2.recs, .completed⟩
    | .err t2 k2 e => ⟨t ++ t2, k2.recs, .raisedError e⟩
    | .intr t2 k2 =>
      match (bindM (turn_off w) (fun _ => strQueryOp w)) k2 with
      | .ok t3 k3 _ => ⟨t ++ t2 ++ t3, k3.recs, .cancelled⟩
      | .err t3 k3 e => ⟨t ++ t2 ++ t3, k3.recs, .raisedError e⟩
      | .intr t3 k3 => ⟨t ++ t2 ++ t3, k3.recs, .raisedInterrupt⟩

/-- Events of cleanup: the attempted output-OFF write and the attempted
session close.  The attempt is recorded whether or not the call fails. -/
inductive CEv where
  | offAttempt
  | closeAttempt
deriving DecidableEq

/-- One best-effort call inside cleanup: the attempt always happens; the call
errors exactly when its failure flag is set. -/
def attemptCall (e : CEv) (fail : Bool) : List CEv × Option PyErr :=
  ([e], if fail then some PyErr.protocol else none)

/-- cleanup: try turn_off / except Exception pass, then try session close /
except Exception pass.  Each except block discards the error of its attempt,
so the caller never sees one. -/
def cleanup (failOff failClose : Bool) : List CEv × Option PyErr :=
  let a1 := attemptCall CEv.offAttempt failOff
  let a2 := attemptCall CEv.closeAttempt failClose
  (a1.1 ++ a2.1, none)

/-- Prepend already-emitted events to the result of the remaining program. -/
def prependR {α : Type} (t : List Ev) : R α → R α
  | .ok t2 k a => .ok (t ++ t2) k a
  | .intr t2 k => .intr (t ++ t2) k
  | .err t2 k e => .err (t ++ t2) k e

/-- Number of channel operations in the body of one step (through the status
query): four parameter writes, fire, the settle sleep, two measurement
queries, the remaining-ON sleeps, the OFF write, the status query. -/
def bodyOps (onT : ℕ) : ℕ := 10 + (onT - 1)

/-- Number of channel operations in one full loop iteration (body plus the
OFF-phase sleeps). -/
def stepOps (onT offT : ℕ) : ℕ := bodyOps onT + offT

/-- The step record a healthy step starting at operation index n produces. -/
def mkRec (w : World) (onT idx : ℕ) (c : ℚ) (n : ℕ) : StepRec :=
  ⟨idx, c, w.qnum (n+6) * 1000, w.qnum (n+7), pyStrip (w.qstr (n+8+(onT-1)+1))⟩

/-- The events a healthy step body starting at operation index n emits. -/
def bodyTrace (w : World) (onT offT : ℕ) (maxL c : ℚ) (n : ℕ) : List Ev :=
  [.brightness (c / maxL * 100), .onTime onT, .offTime offT, .count1,
   .outputOn, .sleep, .measCurrQ (w.qnum (n+6)), .measVoltQ (w.qnum (n+7))]
  ++ List.replicate (onT - 1) .sleep
  ++ [.outputOff, .stateQ (w.qstr (n+8+(onT-1)+1))]

/-- The events a step body emits when the post-shutdown status query is the
operation that fails: everything up to and including the OFF write. -/
def bodyTraceNoStatus (w : World) (onT offT : ℕ) (maxL c : ℚ) (n : ℕ) :
    List Ev :=
  [.brightness (c / maxL * 100), .onTime onT, .offTime offT, .count1,
   .outputOn, .sleep, .measCurrQ (w.qnum (n+6)), .measVoltQ (w.qnum (n+7))]
  ++ List.replicate (onT - 1) .sleep
  ++ [.outputOff]

/-- The five writes that program and fire one step, in order: the four
ProgramPulse writes then the FireOutput write. -/
def progFire (onT offT : ℕ) (maxL c : ℚ) : List Ev :=
  [.brightness (c / maxL * 100), .onTime onT, .offTime offT, .count1, .outputOn]

/-- The events a healthy run of the whole loop emits, one step at a time. -/
def loopTrace (w : World) (onT offT : ℕ) (maxL : ℚ) : List ℚ → ℕ → List Ev
  | [], _ => []
  | c :: cs, n =>
      bodyTrace w onT offT maxL c n ++ List.replicate offT .sleep
        ++ loopTrace w onT offT maxL cs (n + stepOps onT offT)

/-- The records a healthy run of the whole loop produces. -/
def loopRecs (w : World) (onT offT : ℕ) : List ℚ → ℕ → ℕ → List StepRec
  | [], _, _ => []
  | c :: cs, idx, n =>
      mkRec w onT idx c n :: loopRecs w onT offT cs (idx+1) (n + stepOps onT offT)

/-- Output state after a healthy loop run: untouched when there was no step,
otherwise OFF (every step ends with turn_off, and OFF-phase sleeps keep it). -/
def outAfter (cs : List ℚ) (b : Bool) : Bool := if cs.isEmpty then b else false

/-- Recognize a sleep event. -/
def isSleep : Ev → Bool
  | .sleep => true
  | _ => false

/-- Total seconds slept in an event list (every sleep is one second). -/
def sleepCount (t : List Ev) : ℕ := t.countP isSleep

/-- Recognize a ProgramPulse write or the FireOutput write. -/
def isProgramOrFire : Ev → Bool
  | .brightness _ => true
  | .onTime _ => true
  | .offTime _ => true
  | .count1 => true
  | .outputOn => true
  | _ => false


/-- Recognize a measurement query event. -/
def isMeasurement : Ev → Bool
  | .measCurrQ _ => true
  | .measVoltQ _ => true
  | _ => false

/-- Recognize the TurnOff write. -/
def isOutputOff : Ev → Bool
  | .outputOff => true
  | _ => false

/-- The ON-interval section of one step, from the settle sleep through the
remaining-ON hold: one settle sleep, the two measurement queries, then
onT - 1 further sleeps. -/
def onWindow (w : World) (onT : ℕ) (n : ℕ) : List Ev :=
  [.sleep] ++ [.measCurrQ (w.qnum (n+6)), .measVoltQ (w.qnum (n+7))]
    ++ List.replicate (onT - 1) .sleep

/-- The OFF-hold section of one step. -/
def offWindow (offT : ℕ) : List Ev := List.replicate offT .sleep

/-- A world whose channel never fails, never interrupted: every numeric query
answers 3/1000 and every state query answers OFF. -/
def wOk : World := ⟨fun _ => false, fun _ => false, fun _ => 3/1000, fun _ => "OFF"⟩

/-- A healthy world with a single operator interrupt pending at operation M. -/
def wIntrAt (M : ℕ) : World :=
  ⟨fun _ => false, fun m => m == M, fun _ => 3/1000, fun _ => "OFF"⟩

/-- A world whose channel fails exactly at operation F, never interrupted. -/
def wFailAt (F : ℕ) : World :=
  ⟨fun m => m == F, fun _ => false, fun _ => 3/1000, fun _ => "OFF"⟩

-- ## Execution lemmas

theorem bindM_ok {α β : Type} {m : K → R α} {f : α → K → R β} {k : K}
    {t1 : List Ev} {k1 : K} {a : α} (h : m k = R.ok t1 k1 a) :
    bindM m f k = prependR t1 (f a k1) := by
  cases h2 : f a k1 <;> simp [bindM, prependR, h, h2]

theorem bindM_intr {α β : Type} {m : K → R α} {f : α → K → R β} {k : K}
    {t1 : List Ev} {k1 : K} (h : m k = R.intr t1 k1) :
    bindM m f k = R.intr t1 k1 := by
  simp [bindM, h]

theorem bindM_err {α β : Type} {m : K → R α} {f : α → K → R β} {k : K}
    {t1 : List Ev} {k1 : K} {e : PyErr} (h : m k = R.err t1 k1 e) :
    bindM m f k = R.err t1 k1 e := by
  simp [bindM, h]

theorem spp_ok {w : World} {onT offT : ℕ} {maxL curr : ℚ} {n : ℕ} {out : Bool}
    {recs : List StepRec} (hL : maxL ≠ 0)
    (h0 : w.fails n = false) (h1 : w.fails (n+1) = false)
    (h2 : w.fails (n+2) = false) (h3 : w.fails (n+3) = false) :
    set_pulse_parameters w onT offT maxL curr ⟨n, out, recs⟩ =
      R.ok [.brightness (curr/maxL*100), .onTime onT, .offTime offT, .count1]
        ⟨n+4, out, recs⟩ () := by
  simp [set_pulse_parameters, pulse_writes, bindM, writeOp, hL, h0, h1, h2, h3, evEffect]

theorem measure_ok {w : World} {n : ℕ} {out : Bool} {recs : List StepRec}
    (h0 : w.fails n = false) (h1 : w.fails (n+1) = false) :
    measure w ⟨n, out, recs⟩ =
      R.ok [.measCurrQ (w.qnum n), .measVoltQ (w.qnum (n+1))] ⟨n+2, out, recs⟩
        (w.qnum n * 1000, w.qnum (n+1)) := by
  simp [measure, bindM, numQueryOp, pureM, h0, h1]

theorem sleepN_ok {w : World} {m n : ℕ} {out : Bool} {recs : List StepRec}
    (h : ∀ j, j < m → w.intr (n + j) = false) :
    sleepN w m ⟨n, out, recs⟩ =
      R.ok (List.replicate m .sleep) ⟨n + m, out, recs⟩ () := by
  induction m generalizing n with
  | zero => simp [sleepN, pureM]
  | succ m ih =>
    have h0 : w.intr n = false := by simpa using h 0 (Nat.succ_pos m)
    have hrest : ∀ j, j < m → w.intr (n + 1 + j) = false := by
      intro j hj
      have he : n + 1 + j = n + (j + 1) := by omega
      rw [he]
      exact h (j + 1) (by omega)
    simp only [sleepN]
    rw [bindM_ok (show sleepOp w ⟨n, out, recs⟩ = R.ok [.sleep] ⟨n+1, out, recs⟩ ()
          from by simp [sleepOp, h0])]
    rw [ih hrest]
    simp [prependR, List.replicate_succ]
    omega

theorem sleepN_intr {w : World} {m n j : ℕ} {out : Bool} {recs : List StepRec}
    (hj : j < m) (hbelow : ∀ i, i < j → w.intr (n + i) = false)
    (hat : w.intr (n + j) = true) :
    sleepN w m ⟨n, out, recs⟩ =
      R.intr (List.replicate j .sleep) ⟨n + j + 1, out, recs⟩ := by
  induction m generalizing n j with
  | zero => omega
  | succ m ih =>
    cases j with
    | zero =>
      simp only [sleepN]
      have hat0 : w.intr n = true := by simpa using hat
      have hs : sleepOp w ⟨n, out, recs⟩ = R.intr [] ⟨n+1, out, recs⟩ := by
        simp [sleepOp, hat0]
      simp [bindM, hs, List.replicate]
    | succ j2 =>
      have h0 : w.intr n = false := by simpa using hbelow 0 (Nat.succ_pos j2)
      have hb2 : ∀ i, i < j2 → w.intr (n + 1 + i) = false := by
        intro i hi
        have he : n + 1 + i = n + (i + 1) := by omega
        rw [he]
        exact hbelow (i + 1) (by omega)
      have ha2 : w.intr (n + 1 + j2) = true := by
        have he : n + 1 + j2 = n + (j2 + 1) := by omega
        rw [he]
        exact hat
      simp only [sleepN]
      rw [bindM_ok (show sleepOp w ⟨n, out, recs⟩ = R.ok [.sleep] ⟨n+1, out, recs⟩ ()
            from by simp [sleepOp, h0])]
      rw [ih (show j2 < m by omega) hb2 ha2]
      simp [prependR, List.replicate_succ]
      omega

theorem stepBody_ok {w : World} {onT offT : ℕ} {maxL curr : ℚ} {idx n : ℕ}
    {out : Bool} {recs : List StepRec} (hL : maxL ≠ 0)
    (hf : ∀ m, n ≤ m → m < n + bodyOps onT → w.fails m = false)
    (hi : ∀ m, n ≤ m → m < n + bodyOps onT → w.intr m = false) :
    stepBody w onT offT maxL idx curr ⟨n, out, recs⟩ =
      R.ok (bodyTrace w onT offT maxL curr n)
        ⟨n + bodyOps onT, false, recs ++ [mkRec w onT idx curr n]⟩ () := by
  have e1 : set_pulse_parameters w onT offT maxL curr ⟨n, out, recs⟩ =
      R.ok [.brightness (curr/maxL*100), .onTime onT, .offTime offT, .count1]
        ⟨n+4, out, recs⟩ () :=
    spp_ok hL (hf n (by omega) (by simp only [bodyOps]; omega))
      (hf (n+1) (by omega) (by simp only [bodyOps]; omega))
      (hf (n+2) (by omega) (by simp only [bodyOps]; omega))
      (hf (n+3) (by omega) (by simp only [bodyOps]; omega))
  have e2 : fire_pulse w ⟨n+4, out, recs⟩ = R.ok [.outputOn] ⟨n+5, true, recs⟩ () := by
    have f4 : w.fails (n+4) = false := hf (n+4) (by omega) (by simp only [bodyOps]; omega)
    simp [fire_pulse, writeOp, f4, evEffect]
  have e3 : sleepOp w ⟨n+5, true, recs⟩ = R.ok [.sleep] ⟨n+6, true, recs⟩ () := by
    have i5 : w.intr (n+5) = false := hi (n+5) (by omega) (by simp only [bodyOps]; omega)
    simp [sleepOp, i5]
  have e4 : measure w ⟨n+6, true, recs⟩ =
      R.ok [.measCurrQ (w.qnum (n+6)), .measVoltQ (w.qnum (n+7))] ⟨n+8, true, recs⟩
        (w.qnum (n+6) * 1000, w.qnum (n+7)) := by
    have f6 : w.fails (n+6) = false := hf (n+6) (by omega) (by simp only [bodyOps]; omega)
    have f7 : w.fails (n+7) = false := hf (n+7) (by omega) (by simp only [bodyOps]; omega)
    have f7b : w.fails (n+6+1) = false := by simpa using f7
    simpa using measure_ok f6 f7b
  have e5 : sleepN w (onT-1) ⟨n+8, true, recs⟩ =
      R.ok (List.replicate (onT-1) .sleep) ⟨n+8+(onT-1), true, recs⟩ () := by
    refine sleepN_ok ?_
    intro j hj
    exact hi (n+8+j) (by omega) (by simp only [bodyOps]; omega)
  have e6 : turn_off w ⟨n+8+(onT-1), true, recs⟩ =
      R.ok [.outputOff] ⟨n+8+(onT-1)+1, false, recs⟩ () := by
    have f8 : w.fails (n+8+(onT-1)) = false :=
      hf (n+8+(onT-1)) (by omega) (by simp only [bodyOps]; omega)
    simp [turn_off, writeOp, f8, evEffect]
  have e7 : strQueryOp w ⟨n+8+(onT-1)+1, false, recs⟩ =
      R.ok [.stateQ (w.qstr (n+8+(onT-1)+1))] ⟨n+8+(onT-1)+1+1, false, recs⟩
        (w.qstr (n+8+(onT-1)+1)) := by
    have f9 : w.fails (n+8+(onT-1)+1) = false :=
      hf (n+8+(onT-1)+1) (by omega) (by simp only [bodyOps]; omega)
    simp [strQueryOp, f9]
  simp only [stepBody, bindM_ok e1, bindM_ok e2, bindM_ok e3, bindM_ok e4,
    bindM_ok e5, bindM_ok e6, bindM_ok e7, prependR, recordOp]
  simp [bodyTrace, mkRec]
  simp only [bodyOps]
  omega

theorem prependR_nil {α : Type} (r : R α) : prependR [] r = r := by
  cases r <;> simp [prependR]

theorem prependR_prependR {α : Type} (t1 t2 : List Ev) (r : R α) :
    prependR t1 (prependR t2 r) = prependR (t1 ++ t2) r := by
  cases r <;> simp [prependR]

theorem outAfter_false (cs : List ℚ) : outAfter cs false = false := by
  cases cs <;> simp [outAfter]

theorem loopRecs_length {w : World} {onT offT : ℕ} (cs : List ℚ) (idx n : ℕ) :
    (loopRecs w onT offT cs idx n).length = cs.length := by
  induction cs generalizing idx n with
  | nil => rfl
  | cons c cs ih => simp [loopRecs, ih]

theorem sweepLoop_split {w : World} {onT offT : ℕ} {maxL : ℚ} {idx n : ℕ}
    {out : Bool} {recs : List StepRec} {cs : List ℚ} {i : ℕ}
    (hL : maxL ≠ 0) (hle : i ≤ cs.length)
    (hf : ∀ m, n ≤ m → m < n + i * stepOps onT offT → w.fails m = false)
    (hi : ∀ m, n ≤ m → m < n + i * stepOps onT offT → w.intr m = false) :
    sweepLoop w onT offT maxL idx cs ⟨n, out, recs⟩ =
      prependR (loopTrace w onT offT maxL (cs.take i) n)
        (sweepLoop w onT offT maxL (idx + i) (cs.drop i)
          ⟨n + i * stepOps onT offT, outAfter (cs.take i) out,
           recs ++ loopRecs w onT offT (cs.take i) idx n⟩) := by
  induction i generalizing cs idx n out recs with
  | zero =>
    simp [loopTrace, loopRecs, outAfter, prependR_nil]
  | succ i ih =>
    match cs with
    | [] => simp at hle
    | c :: cs2 =>
      have hBO : bodyOps onT = 10 + (onT - 1) := rfl
      have hBS : stepOps onT offT = bodyOps onT + offT := rfl
      have hmul : (i + 1) * stepOps onT offT
          = i * stepOps onT offT + stepOps onT offT := by ring
      have hle2 : i ≤ cs2.length := by simp at hle; omega
      have hb : stepBody w onT offT maxL idx c ⟨n, out, recs⟩ =
          R.ok (bodyTrace w onT offT maxL c n)
            ⟨n + bodyOps onT, false, recs ++ [mkRec w onT idx c n]⟩ () := by
        refine stepBody_ok hL ?_ ?_
        · intro m h1 h2
          exact hf m h1 (by omega)
        · intro m h1 h2
          exact hi m h1 (by omega)
      have hsl : sleepN w offT ⟨n + bodyOps onT, false, recs ++ [mkRec w onT idx c n]⟩ =
          R.ok (List.replicate offT .sleep)
            ⟨n + bodyOps onT + offT, false, recs ++ [mkRec w onT idx c n]⟩ () := by
        refine sleepN_ok ?_
        intro j hj
        exact hi (n + bodyOps onT + j) (by omega) (by omega)
      have hrest : ∀ m, n + stepOps onT offT ≤ m →
          m < n + stepOps onT offT + i * stepOps onT offT → w.fails m = false := by
        intro m h1 h2
        exact hf m (by omega) (by omega)
      have hrest2 : ∀ m, n + stepOps onT offT ≤ m →
          m < n + stepOps onT offT + i * stepOps onT offT → w.intr m = false := by
        intro m h1 h2
        exact hi m (by omega) (by omega)
      have heq : n + bodyOps onT + offT = n + stepOps onT offT := by omega
      simp only [sweepLoop, bindM_ok hb, bindM_ok hsl, heq]
      rw [ih hle2 hrest hrest2]
      have hc1 : n + stepOps onT offT + i * stepOps onT offT
          = n + (i + 1) * stepOps onT offT := by omega
      have hc2 : idx + 1 + i = idx + (i + 1) := by omega
      rw [hc1, hc2]
      simp [prependR_prependR, loopTrace, loopRecs, outAfter_false, outAfter,
        List.append_assoc]

theorem sweepLoop_ok {w : World} {onT offT : ℕ} {maxL : ℚ} {idx n : ℕ}
    {out : Bool} {recs : List StepRec} {cs : List ℚ}
    (hL : maxL ≠ 0)
    (hf : ∀ m, n ≤ m → m < n + cs.length * stepOps onT offT → w.fails m = false)
    (hi : ∀ m, n ≤ m → m < n + cs.length * stepOps onT offT → w.intr m = false) :
    sweepLoop w onT offT maxL idx cs ⟨n, out, recs⟩ =
      R.ok (loopTrace w onT offT maxL cs n)
        ⟨n + cs.length * stepOps onT offT, outAfter cs out,
         recs ++ loopRecs w onT offT cs idx n⟩ () := by
  rw [sweepLoop_split hL (le_refl cs.length) hf hi]
  simp [List.take_length, List.drop_length, sweepLoop, pureM, prependR]

theorem run_sweep_ok {w : World} {cd onT offT : ℕ} {currents : List ℚ}
    {maxL : ℚ} {out0 : Bool} (hL : maxL ≠ 0)
    (hf : ∀ m, m < cd + currents.length * stepOps onT offT → w.fails m = false)
    (hi : ∀ m, m < cd + currents.length * stepOps onT offT → w.intr m = false) :
    run_sweep w cd onT offT currents maxL out0 =
      ⟨List.replicate cd .sleep ++ loopTrace w onT offT maxL currents cd,
       loopRecs w onT offT currents 1 cd, .completed⟩ := by
  have h0 : sleepN w cd ⟨0, out0, []⟩ =
      R.ok (List.replicate cd .sleep) ⟨0 + cd, out0, []⟩ () := by
    refine sleepN_ok ?_
    intro j hj
    simpa using hi j (by omega)
  have h0b : sleepN w cd ⟨0, out0, []⟩ =
      R.ok (List.replicate cd .sleep) ⟨cd, out0, []⟩ () := by simpa using h0
  have hl : sweepLoop w onT offT maxL 1 currents ⟨cd, out0, []⟩ =
      R.ok (loopTrace w onT offT maxL currents cd)
        ⟨cd + currents.length * stepOps onT offT, outAfter currents out0,
         [] ++ loopRecs w onT offT currents 1 cd⟩ () := by
    refine sweepLoop_ok hL ?_ ?_
    · intro m h1 h2
      exact hf m (by omega)
    · intro m h1 h2
      exact hi m (by omega)
  simp [run_sweep, h0b, hl]

theorem loopRecs_map_target {w : World} {onT offT : ℕ} (cs : List ℚ) (idx n : ℕ) :
    (loopRecs w onT offT cs idx n).map (fun r => r.target) = cs := by
  induction cs generalizing idx n with
  | nil => rfl
  | cons c cs ih => simp [loopRecs, mkRec, ih]

theorem loopRecs_map_idx {w : World} {onT offT : ℕ} (cs : List ℚ) (idx n : ℕ) :
    (loopRecs w onT offT cs idx n).map (fun r => r.idx) = List.range' idx cs.length := by
  induction cs generalizing idx n with
  | nil => rfl
  | cons c cs ih => simp [loopRecs, mkRec, ih, List.range'_succ]

theorem countP_replicate {α : Type} (p : α → Bool) (m : ℕ) (a : α) :
    (List.replicate m a).countP p = if p a then m else 0 := by
  induction m with
  | zero => simp
  | succ m ih =>
    rw [List.replicate_succ, List.countP_cons]
    rcases hp : p a <;> simp [hp] at ih ⊢
    omega

theorem sleepCount_onWindow {w : World} {onT n : ℕ} (h1 : 1 ≤ onT) :
    sleepCount (onWindow w onT n) = onT := by
  simp [sleepCount, onWindow, List.countP_append, countP_replicate, isSleep]
  omega

theorem sleepCount_offWindow {offT : ℕ} : sleepCount (offWindow offT) = offT := by
  simp [sleepCount, offWindow, countP_replicate, isSleep]

theorem stepBody_err_prog_fire {w : World} {onT offT : ℕ} {maxL curr : ℚ}
    {idx n : ℕ} {out : Bool} {recs : List StepRec} {d : ℕ}
    (hL : maxL ≠ 0) (hd : d < 5)
    (hf : ∀ m, n ≤ m → m < n + d → w.fails m = false)
    (hfail : w.fails (n + d) = true) :
    stepBody w onT offT maxL idx curr ⟨n, out, recs⟩ =
      R.err ((progFire onT offT maxL curr).take d) ⟨n + d + 1, out, recs⟩
        .protocol := by
  interval_cases d
  · have g0 : w.fails n = true := by simpa using hfail
    simp [stepBody, set_pulse_parameters, pulse_writes, bindM, writeOp, hL, g0,
      progFire]
  · have f0 : w.fails n = false := hf n (by omega) (by omega)
    simp [stepBody, set_pulse_parameters, pulse_writes, bindM, writeOp, evEffect,
      hL, f0, hfail, progFire]
  · have f0 : w.fails n = false := hf n (by omega) (by omega)
    have f1 : w.fails (n+1) = false := hf (n+1) (by omega) (by omega)
    simp [stepBody, set_pulse_parameters, pulse_writes, bindM, writeOp, evEffect,
      hL, f0, f1, hfail, progFire]
  · have f0 : w.fails n = false := hf n (by omega) (by omega)
    have f1 : w.fails (n+1) = false := hf (n+1) (by omega) (by omega)
    have f2 : w.fails (n+2) = false := hf (n+2) (by omega) (by omega)
    simp [stepBody, set_pulse_parameters, pulse_writes, bindM, writeOp, evEffect,
      hL, f0, f1, f2, hfail, progFire]
  · have f0 : w.fails n = false := hf n (by omega) (by omega)
    have f1 : w.fails (n+1) = false := hf (n+1) (by omega) (by omega)
    have f2 : w.fails (n+2) = false := hf (n+2) (by omega) (by omega)
    have f3 : w.fails (n+3) = false := hf (n+3) (by omega) (by omega)
    simp [stepBody, set_pulse_parameters, pulse_writes, fire_pulse, bindM,
      writeOp, evEffect, hL, f0, f1, f2, f3, hfail, progFire]

theorem stepBody_err_status {w : World} {onT offT : ℕ} {maxL curr : ℚ}
    {idx n : ℕ} {out : Bool} {recs : List StepRec} (hL : maxL ≠ 0)
    (hf : ∀ m, n ≤ m → m < n + 8 + (onT - 1) + 1 → w.fails m = false)
    (hi : ∀ m, n ≤ m → m < n + 8 + (onT - 1) + 1 → w.intr m = false)
    (hfail : w.fails (n + 8 + (onT - 1) + 1) = true) :
    stepBody w onT offT maxL idx curr ⟨n, out, recs⟩ =
      R.err (bodyTraceNoStatus w onT offT maxL curr n)
        ⟨n + 8 + (onT - 1) + 1 + 1, false, recs⟩ .protocol := by
  have e1 : set_pulse_parameters w onT offT maxL curr ⟨n, out, recs⟩ =
      R.ok [.brightness (curr/maxL*100), .onTime onT, .offTime offT, .count1]
        ⟨n+4, out, recs⟩ () :=
    spp_ok hL (hf n (by omega) (by omega)) (hf (n+1) (by omega) (by omega))
      (hf (n+2) (by omega) (by omega)) (hf (n+3) (by omega) (by omega))
  have e2 : fire_pulse w ⟨n+4, out, recs⟩ = R.ok [.outputOn] ⟨n+5, true, recs⟩ () := by
    have f4 : w.fails (n+4) = false := hf (n+4) (by omega) (by omega)
    simp [fire_pulse, writeOp, f4, evEffect]
  have e3 : sleepOp w ⟨n+5, true, recs⟩ = R.ok [.sleep] ⟨n+6, true, recs⟩ () := by
    have i5 : w.intr (n+5) = false := hi (n+5) (by omega) (by omega)
    simp [sleepOp, i5]
  have e4 : measure w ⟨n+6, true, recs⟩ =
      R.ok [.measCurrQ (w.qnum (n+6)), .measVoltQ (w.qnum (n+7))] ⟨n+8, true, recs⟩
        (w.qnum (n+6) * 1000, w.qnum (n+7)) := by
    have f6 : w.fails (n+6) = false := hf (n+6) (by omega) (by omega)
    have f7 : w.fails (n+7) = false := hf (n+7) (by omega) (by omega)
    have f7b : w.fails (n+6+1) = false := by simpa using f7
    simpa using measure_ok f6 f7b
  have e5 : sleepN w (onT-1) ⟨n+8, true, recs⟩ =
      R.ok (List.replicate (onT-1) .sleep) ⟨n+8+(onT-1), true, recs⟩ () := by
    refine sleepN_ok ?_
    intro j hj
    exact hi (n+8+j) (by omega) (by omega)
  have e6 : turn_off w ⟨n+8+(onT-1), true, recs⟩ =
      R.ok [.outputOff] ⟨n+8+(onT-1)+1, false, recs⟩ () := by
    have f8 : w.fails (n+8+(onT-1)) = false := hf (n+8+(onT-1)) (by omega) (by omega)
    simp [turn_off, writeOp, f8, evEffect]
  have e7 : strQueryOp w ⟨n+8+(onT-1)+1, false, recs⟩ =
      R.err [] ⟨n+8+(onT-1)+1+1, false, recs⟩ .protocol := by
    simp [strQueryOp, hfail]
  simp only [stepBody, bindM_ok e1, bindM_ok e2, bindM_ok e3, bindM_ok e4,
    bindM_ok e5, bindM_ok e6, bindM_err e7, prependR]
  simp [bodyTraceNoStatus]

theorem loopRecs_take_succ {w : World} {onT offT : ℕ} {cs : List ℚ} {i idx n : ℕ}
    (h : i < cs.length) :
    loopRecs w onT offT (cs.take (i+1)) idx n
      = loopRecs w onT offT (cs.take i) idx n
        ++ [mkRec w onT (idx + i) (cs.getD i 0) (n + i * stepOps onT offT)] := by
  induction i generalizing cs idx n with
  | zero =>
    match cs with
    | [] => simp at h
    | c :: cs2 => simp [loopRecs]
  | succ i ih =>
    match cs with
    | [] => simp at h
    | c :: cs2 =>
      have h2 : i < cs2.length := by simp at h; omega
      have hidx : idx + 1 + i = idx + (i + 1) := by omega
      have hn : n + stepOps onT offT + i * stepOps onT offT
          = n + (i + 1) * stepOps onT offT := by ring
      simp only [List.take_succ_cons, loopRecs, ih h2, hidx, hn, List.getD_cons_succ]
      simp

theorem sweepLoop_intr_offhold {w : World} {onT offT : ℕ} {maxL : ℚ}
    {idx n : ℕ} {out : Bool} {recs : List StepRec} {cs : List ℚ} {i j : ℕ}
    (hL : maxL ≠ 0) (hlen : i < cs.length) (hj : j < offT)
    (hf : ∀ m, n ≤ m → m < n + i * stepOps onT offT + bodyOps onT → w.fails m = false)
    (hib : ∀ m, n ≤ m → m < n + i * stepOps onT offT + bodyOps onT + j →
      w.intr m = false)
    (hia : w.intr (n + i * stepOps onT offT + bodyOps onT + j) = true) :
    sweepLoop w onT offT maxL idx cs ⟨n, out, recs⟩ =
      R.intr (loopTrace w onT offT maxL (cs.take i) n
          ++ bodyTrace w onT offT maxL (cs.getD i 0) (n + i * stepOps onT offT)
          ++ List.replicate j .sleep)
        ⟨n + i * stepOps onT offT + bodyOps onT + j + 1, false,
         recs ++ loopRecs w onT offT (cs.take (i+1)) idx n⟩ := by
  rw [sweepLoop_split hL hlen.le
    (by intro m h1 h2; exact hf m h1 (by omega))
    (by intro m h1 h2; exact hib m h1 (by omega))]
  have hdrop : cs.drop i = cs.getD i 0 :: cs.drop (i+1) := by
    rw [List.getD_eq_getElem _ _ hlen]
    exact List.drop_eq_getElem_cons hlen
  rw [hdrop]
  have hb : stepBody w onT offT maxL (idx + i) (cs.getD i 0)
      ⟨n + i * stepOps onT offT, outAfter (cs.take i) out,
       recs ++ loopRecs w onT offT (cs.take i) idx n⟩ =
      R.ok (bodyTrace w onT offT maxL (cs.getD i 0) (n + i * stepOps onT offT))
        ⟨n + i * stepOps onT offT + bodyOps onT, false,
         (recs ++ loopRecs w onT offT (cs.take i) idx n)
           ++ [mkRec w onT (idx + i) (cs.getD i 0) (n + i * stepOps onT offT)]⟩ () := by
    refine stepBody_ok hL ?_ ?_
    · intro m h1 h2
      exact hf m (by omega) (by omega)
    · intro m h1 h2
      exact hib m (by omega) (by omega)
  have hslp : sleepN w offT
      ⟨n + i * stepOps onT offT + bodyOps onT, false,
       (recs ++ loopRecs w onT offT (cs.take i) idx n)
         ++ [mkRec w onT (idx + i) (cs.getD i 0) (n + i * stepOps onT offT)]⟩ =
      R.intr (List.replicate j .sleep)
        ⟨n + i * stepOps onT offT + bodyOps onT + j + 1, false,
         (recs ++ loopRecs w onT offT (cs.take i) idx n)
           ++ [mkRec w onT (idx + i) (cs.getD i 0) (n + i * stepOps onT offT)]⟩ := by
    refine sleepN_intr hj ?_ ?_
    · intro i2 hi2
      exact hib (n + i * stepOps onT offT + bodyOps onT + i2) (by omega) (by omega)
    · exact hia
  simp only [sweepLoop, bindM_ok hb, bindM_intr hslp, prependR]
  rw [loopRecs_take_succ hlen]
  simp [List.append_assoc]

-- ## Claim theorems

/-- Claim C1, amended: set_pulse_parameters computes the brightness percentage
as current/limit*100 and, when the channel accepts the writes, issues the
amplitude, ON-time, OFF-time and count writes for every current, in range or
not; for 0 <= c <= L the percentage lies in [0,100].  (The claimed
ValidationError for out-of-range currents does not exist in the code: see the
counterexample.) -/
theorem spp_pct_and_always_writes {w : World} {onT offT : ℕ}
    {maxL c : ℚ} {n : ℕ} {out : Bool} {recs : List StepRec}
    (hL : 0 < maxL) (h0 : w.fails n = false) (h1 : w.fails (n+1) = false)
    (h2 : w.fails (n+2) = false) (h3 : w.fails (n+3) = false) :
    set_pulse_parameters w onT offT maxL c ⟨n, out, recs⟩ =
      R.ok [.brightness (c/maxL*100), .onTime onT, .offTime offT, .count1]
        ⟨n+4, out, recs⟩ ()
    ∧ (0 ≤ c → c ≤ maxL → 0 ≤ c/maxL*100 ∧ c/maxL*100 ≤ 100) := by
  refine ⟨spp_ok (ne_of_gt hL) h0 h1 h2 h3, ?_⟩
  intro hc1 hc2
  constructor
  · have : 0 ≤ c / maxL := div_nonneg hc1 hL.le
    nlinarith
  · have hd : c / maxL ≤ 1 := (div_le_one hL).mpr hc2
    nlinarith

/-- Claim C1 witness: the amended theorem at limit 200 mA, current 20 mA. -/
theorem spp_pct_and_always_writes_witness :
    set_pulse_parameters wOk 5 5 200 20 ⟨0, false, []⟩ =
      R.ok [.brightness (20/200*100), .onTime 5, .offTime 5, .count1]
        ⟨4, false, []⟩ ()
    ∧ ((0:ℚ) ≤ 20 → (20:ℚ) ≤ 200 → 0 ≤ (20:ℚ)/200*100 ∧ (20:ℚ)/200*100 ≤ 100) :=
  spp_pct_and_always_writes (by norm_num) rfl rfl rfl rfl

/-- Claim C1 counterexample: a current outside [0, limit] (here -1 mA with
limit 200 mA) does not fail with any error and still issues all four writes,
with a brightness percentage below 0 — refuting the claimed ValidationError
and the claimed absence of writes. -/
theorem spp_out_of_range_still_writes :
    set_pulse_parameters wOk 5 5 200 (-1) ⟨0, false, []⟩ =
      R.ok [.brightness (-1/200*100), .onTime 5, .offTime 5, .count1]
        ⟨4, false, []⟩ ()
    ∧ ((-1 : ℚ)/200*100 < 0) := by
  constructor
  · rfl
  · norm_num

/-- Claim C8: cleanup attempts the output-OFF write, then attempts the channel
close even when the OFF write failed, and returns without surfacing any error,
for every combination of failures of the two calls. -/
theorem cleanup_attempts_both_swallows_errors :
    ∀ failOff failClose : Bool,
      cleanup failOff failClose = ([CEv.offAttempt, CEv.closeAttempt], none) := by
  intro a b
  rfl

/-- Claim C9: turn_off is idempotent: with the channel accepting the writes,
two successive calls from any session state both succeed (no error raised) and
the output state is OFF after each call. -/
theorem turn_off_idempotent {w : World} {k : K}
    (h0 : w.fails k.n = false) (h1 : w.fails (k.n + 1) = false) :
    turn_off w k = R.ok [.outputOff] ⟨k.n + 1, false, k.recs⟩ ()
    ∧ turn_off w ⟨k.n + 1, false, k.recs⟩ =
        R.ok [.outputOff] ⟨k.n + 2, false, k.recs⟩ () := by
  constructor
  · simp [turn_off, writeOp, h0, evEffect]
  · simp [turn_off, writeOp, h1, evEffect]

/-- Claim C9 witness: both calls from an ON state. -/
theorem turn_off_idempotent_witness :
    turn_off wOk ⟨0, true, []⟩ = R.ok [.outputOff] ⟨1, false, []⟩ ()
    ∧ turn_off wOk ⟨1, false, []⟩ = R.ok [.outputOff] ⟨2, false, []⟩ () :=
  turn_off_idempotent rfl rfl

/-- Claim C10: with a positive safety limit the brightness division is defined
and set_pulse_parameters proceeds to the write sequence; with limit 0 the
division raises ZeroDivisionError (unguarded by the code) before any write. -/
theorem spp_division_guard {w : World} {onT offT : ℕ}
    {maxL c : ℚ} {k : K} (hL : 0 < maxL) :
    set_pulse_parameters w onT offT maxL c k = pulse_writes w onT offT maxL c k
    ∧ set_pulse_parameters w onT offT 0 c k = R.err [] k .zeroDiv := by
  constructor
  · simp [set_pulse_parameters, ne_of_gt hL]
  · simp [set_pulse_parameters]

/-- Claim C10 witness: limit 200 mA. -/
theorem spp_division_guard_witness :
    set_pulse_parameters wOk 5 5 200 20 ⟨0, false, []⟩
      = pulse_writes wOk 5 5 200 20 ⟨0, false, []⟩
    ∧ set_pulse_parameters wOk 5 5 0 20 ⟨0, false, []⟩
      = R.err [] ⟨0, false, []⟩ .zeroDiv :=
  spp_division_guard (by norm_num)

/-- Claim C5: a sweep that runs to normal completion returns the completed
outcome with exactly one record per target current, in order: the records
map back onto the current list and their indices count 1, 2, ... in order;
for the empty current list the sweep completes with zero records and its
trace (the countdown sleeps alone) contains no program or fire call. -/
theorem run_sweep_completed_records {w : World} {cd onT offT : ℕ}
    {currents : List ℚ} {maxL : ℚ} {out0 : Bool}
    (hL : maxL ≠ 0) (hf : ∀ m, w.fails m = false)
    (hi : ∀ m, m < cd + currents.length * stepOps onT offT → w.intr m = false) :
    run_sweep w cd onT offT currents maxL out0 =
      ⟨List.replicate cd .sleep ++ loopTrace w onT offT maxL currents cd,
       loopRecs w onT offT currents 1 cd, .completed⟩
    ∧ (loopRecs w onT offT currents 1 cd).map (fun r => r.target) = currents
    ∧ (loopRecs w onT offT currents 1 cd).length = currents.length
    ∧ (loopRecs w onT offT currents 1 cd).map (fun r => r.idx)
        = List.range' 1 currents.length
    ∧ (currents = [] →
        run_sweep w cd onT offT currents maxL out0
          = ⟨List.replicate cd .sleep, [], .completed⟩
        ∧ (List.replicate cd Ev.sleep).countP isProgramOrFire = 0) := by
  have hrun : run_sweep w cd onT offT currents maxL out0 =
      ⟨List.replicate cd .sleep ++ loopTrace w onT offT maxL currents cd,
       loopRecs w onT offT currents 1 cd, .completed⟩ :=
    run_sweep_ok hL (fun m _ => hf m) hi
  refine ⟨hrun, loopRecs_map_target currents 1 cd,
    loopRecs_length currents 1 cd, loopRecs_map_idx currents 1 cd, ?_⟩
  intro hemp
  subst hemp
  constructor
  · simpa [loopTrace, loopRecs] using hrun
  · simp [countP_replicate, isProgramOrFire]

/-- Claim C5 witness: two currents with one-second phases and a one-second
countdown. -/
theorem run_sweep_completed_records_witness :
    run_sweep wOk 1 1 1 [20, 40] 200 false =
      ⟨List.replicate 1 .sleep ++ loopTrace wOk 1 1 200 [20, 40] 1,
       loopRecs wOk 1 1 [20, 40] 1 1, .completed⟩
    ∧ (loopRecs wOk 1 1 [20, 40] 1 1).map (fun r => r.target) = [20, 40]
    ∧ (loopRecs wOk 1 1 [20, 40] 1 1).length = ([20, 40] : List ℚ).length
    ∧ (loopRecs wOk 1 1 [20, 40] 1 1).map (fun r => r.idx)
        = List.range' 1 ([20, 40] : List ℚ).length
    ∧ (([20, 40] : List ℚ) = [] →
        run_sweep wOk 1 1 1 [20, 40] 200 false
          = ⟨List.replicate 1 .sleep, [], .completed⟩
        ∧ (List.replicate 1 Ev.sleep).countP isProgramOrFire = 0) :=
  run_sweep_completed_records (by norm_num) (fun _ => rfl) (fun m _ => rfl)

/-- Claim C4: for every step with onTime >= 1, the step trace decomposes as
the program writes, the fire, the ON window (one settle sleep, then the single
measurement, then onTime - 1 further sleeps), the OFF write with its
confirmation query, and the OFF window; the ON window sleeps exactly onTime
seconds in total (so the settle sleep plus the remaining hold equal onTime,
the hold being empty when onTime = 1), the OFF window sleeps offTime seconds,
and with onTime = 5 and offTime = 5 a full step waits 1 + 4 + 5 seconds from
fire to the next program phase. -/
theorem run_sweep_step_timing {w : World} {cd onT offT : ℕ}
    {currents : List ℚ} {maxL : ℚ} {out0 : Bool}
    (h1 : 1 ≤ onT) (hL : maxL ≠ 0) (hf : ∀ m, w.fails m = false)
    (hi : ∀ m, m < cd + currents.length * stepOps onT offT → w.intr m = false) :
    (run_sweep w cd onT offT currents maxL out0).trace
      = List.replicate cd .sleep ++ loopTrace w onT offT maxL currents cd
    ∧ (∀ c n2, bodyTrace w onT offT maxL c n2 ++ offWindow offT
        = [.brightness (c / maxL * 100), .onTime onT, .offTime offT, .count1]
          ++ [.outputOn]
          ++ onWindow w onT n2
          ++ ([.outputOff, .stateQ (w.qstr (n2+8+(onT-1)+1))] ++ offWindow offT))
    ∧ (∀ n2, sleepCount (onWindow w onT n2) = onT)
    ∧ sleepCount (offWindow offT) = offT
    ∧ (onT = 5 → offT = 5 → ∀ n2,
        sleepCount (onWindow w onT n2
            ++ ([.outputOff, .stateQ (w.qstr (n2+8+(onT-1)+1))] ++ offWindow offT))
          = 1 + 4 + 5) := by
  refine ⟨?_, ?_, ?_, sleepCount_offWindow, ?_⟩
  · rw [run_sweep_ok hL (fun m _ => hf m) hi]
  · intro c n2
    simp [bodyTrace, onWindow, offWindow, List.append_assoc]
  · intro n2
    exact sleepCount_onWindow h1
  · intro hon hoff n2
    subst hon hoff
    simp [sleepCount, onWindow, offWindow, List.countP_append,
      countP_replicate, isSleep]

/-- Claim C4 witness: the spec scenario, onTime 5, offTime 5, currents 20 and
40 mA, limit 200 mA. -/
theorem run_sweep_step_timing_witness :
    (run_sweep wOk 0 5 5 [20, 40] 200 false).trace
      = List.replicate 0 .sleep ++ loopTrace wOk 5 5 200 [20, 40] 0
    ∧ (∀ c n2, bodyTrace wOk 5 5 200 c n2 ++ offWindow 5
        = [.brightness (c / 200 * 100), .onTime 5, .offTime 5, .count1]
          ++ [.outputOn]
          ++ onWindow wOk 5 n2
          ++ ([.outputOff, .stateQ (wOk.qstr (n2+8+(5-1)+1))] ++ offWindow 5))
    ∧ (∀ n2, sleepCount (onWindow wOk 5 n2) = 5)
    ∧ sleepCount (offWindow 5) = 5
    ∧ ((5:ℕ) = 5 → (5:ℕ) = 5 → ∀ n2,
        sleepCount (onWindow wOk 5 n2
            ++ ([.outputOff, .stateQ (wOk.qstr (n2+8+(5-1)+1))] ++ offWindow 5))
          = 1 + 4 + 5) :=
  run_sweep_step_timing (by norm_num) (by norm_num) (fun _ => rfl) (fun m _ => rfl)

/-- Claim C2: a cancellation delivered at the j-th second of the OFF hold of
step i (after step i has completed, before step i+1 is programmed) makes
run_sweep immediately turn the output off and query the state — the trace
after the cancellation point is exactly the OFF write and the confirmation
query — append no further record, and return the cancelled outcome with
exactly the i+1 records of the steps completed before the cancellation. -/
theorem run_sweep_cancel_off_hold {w : World} {cd onT offT : ℕ}
    {currents : List ℚ} {maxL : ℚ} {out0 : Bool} {i j : ℕ}
    (hL : maxL ≠ 0) (hlen : i < currents.length) (hj : j < offT)
    (hf : ∀ m, w.fails m = false)
    (hib : ∀ m, m < cd + i * stepOps onT offT + bodyOps onT + j → w.intr m = false)
    (hia : w.intr (cd + i * stepOps onT offT + bodyOps onT + j) = true) :
    run_sweep w cd onT offT currents maxL out0 =
      ⟨List.replicate cd .sleep
          ++ (loopTrace w onT offT maxL (currents.take i) cd
            ++ (bodyTrace w onT offT maxL (currents.getD i 0) (cd + i * stepOps onT offT)
              ++ (List.replicate j .sleep
                ++ [.outputOff,
                    .stateQ (w.qstr (cd + i * stepOps onT offT + bodyOps onT + j + 2))]))),
       loopRecs w onT offT (currents.take (i+1)) 1 cd, .cancelled⟩
    ∧ (loopRecs w onT offT (currents.take (i+1)) 1 cd).length = i + 1 := by
  have h0 : sleepN w cd ⟨0, out0, []⟩ =
      R.ok (List.replicate cd .sleep) ⟨0 + cd, out0, []⟩ () := by
    refine sleepN_ok ?_
    intro j2 hj2
    exact hib (0 + j2) (by omega)
  have h0b : sleepN w cd ⟨0, out0, []⟩ =
      R.ok (List.replicate cd .sleep) ⟨cd, out0, []⟩ () := by simpa using h0
  have hLoop : sweepLoop w onT offT maxL 1 currents ⟨cd, out0, []⟩ =
      R.intr (loopTrace w onT offT maxL (currents.take i) cd
          ++ bodyTrace w onT offT maxL (currents.getD i 0) (cd + i * stepOps onT offT)
          ++ List.replicate j .sleep)
        ⟨cd + i * stepOps onT offT + bodyOps onT + j + 1, false,
         [] ++ loopRecs w onT offT (currents.take (i+1)) 1 cd⟩ := by
    refine sweepLoop_intr_offhold hL hlen hj ?_ ?_ hia
    · intro m h1 h2
      exact hf m
    · intro m h1 h2
      exact hib m h2
  simp only [List.nil_append] at hLoop
  have hh : bindM (turn_off w) (fun _ => strQueryOp w)
      ⟨cd + i * stepOps onT offT + bodyOps onT + j + 1, false,
       loopRecs w onT offT (currents.take (i+1)) 1 cd⟩ =
      R.ok [.outputOff,
            .stateQ (w.qstr (cd + i * stepOps onT offT + bodyOps onT + j + 2))]
        ⟨cd + i * stepOps onT offT + bodyOps onT + j + 3, false,
         loopRecs w onT offT (currents.take (i+1)) 1 cd⟩
        (w.qstr (cd + i * stepOps onT offT + bodyOps onT + j + 2)) := by
    simp [bindM, turn_off, writeOp, strQueryOp, hf, evEffect]
  constructor
  · simp [run_sweep, h0b, hLoop, hh, List.append_assoc]
  · rw [loopRecs_length]
    simp [List.length_take]
    omega

/-- Claim C2 witness: cancellation in the OFF hold of the first of two steps
(operation 11 with countdown 1, onTime 1, offTime 1). -/
theorem run_sweep_cancel_off_hold_witness :
    run_sweep (wIntrAt 11) 1 1 1 [20, 40] 200 false =
      ⟨List.replicate 1 .sleep
          ++ (loopTrace (wIntrAt 11) 1 1 200 (([20, 40] : List ℚ).take 0) 1
            ++ (bodyTrace (wIntrAt 11) 1 1 200 (([20, 40] : List ℚ).getD 0 0)
                  (1 + 0 * stepOps 1 1)
              ++ (List.replicate 0 .sleep
                ++ [.outputOff,
                    .stateQ ((wIntrAt 11).qstr (1 + 0 * stepOps 1 1 + bodyOps 1 + 0 + 2))]))),
       loopRecs (wIntrAt 11) 1 1 (([20, 40] : List ℚ).take (0+1)) 1 1, .cancelled⟩
    ∧ (loopRecs (wIntrAt 11) 1 1 (([20, 40] : List ℚ).take (0+1)) 1 1).length = 0 + 1 := by
  refine run_sweep_cancel_off_hold (by norm_num) (by simp) (by norm_num)
    (fun _ => rfl) ?_ (by decide)
  intro m hm
  simp only [stepOps, bodyOps] at hm
  simp only [wIntrAt]
  simp only [beq_eq_false_iff_ne, ne_eq]
  omega

/-- Claim C3, amended: when any of the ProgramPulse writes or the FireOutput
write of step i+1 fails (after i completed steps), run_sweep aborts at once:
the error propagates as the outcome, exactly the i records of the completed
steps exist, and no later step is attempted — the trace stops at the failing
operation (after it come no events at all, only the completed steps and the
successful program/fire writes before the failure appear), so in particular
no TurnOff is issued by run_sweep after the failure (the claimed
forced TurnOff does not happen; shutdown is left to the caller). -/
theorem run_sweep_program_failure {w : World} {cd onT offT : ℕ}
    {currents : List ℚ} {maxL : ℚ} {out0 : Bool} {i d : ℕ}
    (hL : maxL ≠ 0) (hlen : i < currents.length) (hd : d < 5)
    (hi2 : ∀ m, w.intr m = false)
    (hfb : ∀ m, m < cd + i * stepOps onT offT + d → w.fails m = false)
    (hfa : w.fails (cd + i * stepOps onT offT + d) = true) :
    run_sweep w cd onT offT currents maxL out0 =
      ⟨List.replicate cd .sleep
          ++ (loopTrace w onT offT maxL (currents.take i) cd
            ++ (progFire onT offT maxL (currents.getD i 0)).take d),
       loopRecs w onT offT (currents.take i) 1 cd, .raisedError .protocol⟩
    ∧ (loopRecs w onT offT (currents.take i) 1 cd).length = i := by
  have h0 : sleepN w cd ⟨0, out0, []⟩ =
      R.ok (List.replicate cd .sleep) ⟨0 + cd, out0, []⟩ () :=
    sleepN_ok (fun j _ => hi2 (0 + j))
  have h0b : sleepN w cd ⟨0, out0, []⟩ =
      R.ok (List.replicate cd .sleep) ⟨cd, out0, []⟩ () := by simpa using h0
  have hdrop : currents.drop i = currents.getD i 0 :: currents.drop (i+1) := by
    rw [List.getD_eq_getElem _ _ hlen]
    exact List.drop_eq_getElem_cons hlen
  have herr : stepBody w onT offT maxL (1+i) (currents.getD i 0)
      ⟨cd + i * stepOps onT offT, outAfter (currents.take i) out0,
       [] ++ loopRecs w onT offT (currents.take i) 1 cd⟩ =
      R.err ((progFire onT offT maxL (currents.getD i 0)).take d)
        ⟨cd + i * stepOps onT offT + d + 1, outAfter (currents.take i) out0,
         [] ++ loopRecs w onT offT (currents.take i) 1 cd⟩ .protocol := by
    refine stepBody_err_prog_fire hL hd ?_ hfa
    intro m h1 h2
    exact hfb m (by omega)
  have hLoop : sweepLoop w onT offT maxL 1 currents ⟨cd, out0, []⟩ =
      R.err (loopTrace w onT offT maxL (currents.take i) cd
          ++ (progFire onT offT maxL (currents.getD i 0)).take d)
        ⟨cd + i * stepOps onT offT + d + 1, outAfter (currents.take i) out0,
         loopRecs w onT offT (currents.take i) 1 cd⟩ .protocol := by
    rw [sweepLoop_split hL hlen.le (fun m _ h2 => hfb m (by omega))
      (fun m _ _ => hi2 m), hdrop]
    simp only [sweepLoop, bindM_err herr, prependR]
    simp
  constructor
  · simp [run_sweep, h0b, hLoop]
  · rw [loopRecs_length]
    simp [List.length_take]
    omega

/-- Claim C3 counterexample: ProgramPulse of step 2 of 3 fails (operation 10);
the outcome carries the error and exactly one completed record, but the trace
contains exactly one OFF write — the one of step 1 shutdown, before the
failure — and nothing at all after the failure, refuting the claimed forced
TurnOff on the abort path. -/
theorem run_sweep_program_failure_cex :
    run_sweep (wFailAt 10) 0 1 0 [20, 40, 60] 200 false =
      ⟨[.brightness (20/200*100), .onTime 1, .offTime 0, .count1, .outputOn, .sleep,
        .measCurrQ (3/1000), .measVoltQ (3/1000), .outputOff, .stateQ "OFF"],
       [⟨1, 20, 3/1000*1000, 3/1000, "OFF"⟩], .raisedError .protocol⟩
    ∧ List.countP isOutputOff
        (run_sweep (wFailAt 10) 0 1 0 [20, 40, 60] 200 false).trace = 1 := by
  constructor
  · rfl
  · rfl

/-- Claim C6, amended: a cancellation delivered at the j-th second of the
initial countdown aborts before any pulse is programmed — the trace holds no
program or fire event — but the interrupt propagates out of run_sweep uncaught
(the countdown runs outside the try block): the outcome is a raised
KeyboardInterrupt, not a returned Cancelled outcome, and no TurnOff is issued. -/
theorem run_sweep_countdown_interrupt {w : World} {cd onT offT : ℕ}
    {currents : List ℚ} {maxL : ℚ} {out0 : Bool} {j : ℕ}
    (hj : j < cd) (hb : ∀ m, m < j → w.intr m = false) (ha : w.intr j = true) :
    run_sweep w cd onT offT currents maxL out0
      = ⟨List.replicate j .sleep, [], .raisedInterrupt⟩
    ∧ (List.replicate j Ev.sleep).countP isProgramOrFire = 0
    ∧ (List.replicate j Ev.sleep).countP isOutputOff = 0 := by
  have h0 : sleepN w cd ⟨0, out0, []⟩ =
      R.intr (List.replicate j .sleep) ⟨0 + j + 1, out0, []⟩ :=
    sleepN_intr hj (fun i2 h2 => hb (0 + i2) (by omega)) (by simpa using ha)
  refine ⟨by simp [run_sweep, h0], ?_, ?_⟩
  · simp [countP_replicate, isProgramOrFire]
  · simp [countP_replicate, isOutputOff]

/-- Claim C6 counterexample: an interrupt at the first countdown second of a
3-second countdown yields a propagated KeyboardInterrupt with an empty trace
and no records — not a returned Cancelled outcome. -/
theorem run_sweep_countdown_interrupt_cex :
    run_sweep (wIntrAt 0) 3 5 5 [20] 200 false = ⟨[], [], .raisedInterrupt⟩
    ∧ Outcome.raisedInterrupt ≠ Outcome.cancelled := by
  constructor
  · rfl
  · decide

/-- Claim C7, amended: when the post-shutdown state query of step i+1 fails,
the error propagates and aborts the sweep: the outcome is a raised protocol
error, only the i records of the previously completed steps exist — the
interrupted step contributes no record even though its measurement was taken
(both measurement queries appear in its partial trace) and the output had
already been turned off just before the query. -/
theorem run_sweep_status_query_failure {w : World} {cd onT offT : ℕ}
    {currents : List ℚ} {maxL : ℚ} {out0 : Bool} {i : ℕ}
    (hL : maxL ≠ 0) (hlen : i < currents.length)
    (hi2 : ∀ m, w.intr m = false)
    (hfb : ∀ m, m < cd + i * stepOps onT offT + 8 + (onT - 1) + 1 →
      w.fails m = false)
    (hfa : w.fails (cd + i * stepOps onT offT + 8 + (onT - 1) + 1) = true) :
    run_sweep w cd onT offT currents maxL out0 =
      ⟨List.replicate cd .sleep
          ++ (loopTrace w onT offT maxL (currents.take i) cd
            ++ bodyTraceNoStatus w onT offT maxL (currents.getD i 0)
                (cd + i * stepOps onT offT)),
       loopRecs w onT offT (currents.take i) 1 cd, .raisedError .protocol⟩
    ∧ (loopRecs w onT offT (currents.take i) 1 cd).length = i
    ∧ (bodyTraceNoStatus w onT offT maxL (currents.getD i 0)
        (cd + i * stepOps onT offT)).countP isMeasurement = 2 := by
  have h0 : sleepN w cd ⟨0, out0, []⟩ =
      R.ok (List.replicate cd .sleep) ⟨0 + cd, out0, []⟩ () :=
    sleepN_ok (fun j _ => hi2 (0 + j))
  have h0b : sleepN w cd ⟨0, out0, []⟩ =
      R.ok (List.replicate cd .sleep) ⟨cd, out0, []⟩ () := by simpa using h0
  have hdrop : currents.drop i = currents.getD i 0 :: currents.drop (i+1) := by
    rw [List.getD_eq_getElem _ _ hlen]
    exact List.drop_eq_getElem_cons hlen
  have herr : stepBody w onT offT maxL (1+i) (currents.getD i 0)
      ⟨cd + i * stepOps onT offT, outAfter (currents.take i) out0,
       [] ++ loopRecs w onT offT (currents.take i) 1 cd⟩ =
      R.err (bodyTraceNoStatus w onT offT maxL (currents.getD i 0)
          (cd + i * stepOps onT offT))
        ⟨cd + i * stepOps onT offT + 8 + (onT - 1) + 1 + 1, false,
         [] ++ loopRecs w onT offT (currents.take i) 1 cd⟩ .protocol := by
    refine stepBody_err_status hL ?_ ?_ hfa
    · intro m h1 h2
      exact hfb m (by omega)
    · intro m h1 h2
      exact hi2 m
  have hLoop : sweepLoop w onT offT maxL 1 currents ⟨cd, out0, []⟩ =
      R.err (loopTrace w onT offT maxL (currents.take i) cd
          ++ bodyTraceNoStatus w onT offT maxL (currents.getD i 0)
              (cd + i * stepOps onT offT))
        ⟨cd + i * stepOps onT offT + 8 + (onT - 1) + 1 + 1, false,
         loopRecs w onT offT (currents.take i) 1 cd⟩ .protocol := by
    rw [sweepLoop_split hL hlen.le (fun m _ h2 => hfb m (by omega))
      (fun m _ _ => hi2 m), hdrop]
    simp only [sweepLoop, bindM_err herr, prependR]
    simp
  refine ⟨?_, ?_, ?_⟩
  · simp [run_sweep, h0b, hLoop, List.append_assoc]
  · rw [loopRecs_length]
    simp [List.length_take]
    omega
  · simp [bodyTraceNoStatus, List.countP_append, countP_replicate, isMeasurement,
      List.countP_cons]

/-- Claim C7 counterexample: the status query of the only step fails
(operation 9): the sweep aborts with a propagated error and zero records even
though the two measurement queries are in the trace — refuting the claim that
the failure is recorded as an empty state and the record still produced. -/
theorem run_sweep_status_query_failure_cex :
    run_sweep (wFailAt 9) 0 1 0 [20] 200 false =
      ⟨[.brightness (20/200*100), .onTime 1, .offTime 0, .count1, .outputOn, .sleep,
        .measCurrQ (3/1000), .measVoltQ (3/1000), .outputOff],
       [], .raisedError .protocol⟩
    ∧ List.countP isMeasurement
        (run_sweep (wFailAt 9) 0 1 0 [20] 200 false).trace = 2
    ∧ (run_sweep (wFailAt 9) 0 1 0 [20] 200 false).recs = [] := by
  refine ⟨rfl, rfl, rfl⟩

/-- Claim C3 witness: the amended theorem with the FireOutput write of step 2
of 3 failing (offset 4 in the program/fire prefix, operation 14, countdown 0,
onTime 1, offTime 0). -/
theorem run_sweep_program_failure_witness :
    run_sweep (wFailAt 14) 0 1 0 [20, 40, 60] 200 false =
      ⟨List.replicate 0 .sleep
          ++ (loopTrace (wFailAt 14) 1 0 200 (([20, 40, 60] : List ℚ).take 1) 0
            ++ (progFire 1 0 200 (([20, 40, 60] : List ℚ).getD 1 0)).take 4),
       loopRecs (wFailAt 14) 1 0 (([20, 40, 60] : List ℚ).take 1) 1 0,
       .raisedError .protocol⟩
    ∧ (loopRecs (wFailAt 14) 1 0 (([20, 40, 60] : List ℚ).take 1) 1 0).length = 1 := by
  refine run_sweep_program_failure (by norm_num) (by simp) (by norm_num)
    (fun _ => rfl) ?_ (by decide)
  intro m hm
  simp only [stepOps, bodyOps] at hm
  simp only [wFailAt]
  simp only [beq_eq_false_iff_ne, ne_eq]
  omega

/-- Claim C6 witness: the amended theorem with an interrupt at the second
countdown second of a 3-second countdown. -/
theorem run_sweep_countdown_interrupt_witness :
    run_sweep (wIntrAt 1) 3 5 5 [20] 200 false
      = ⟨List.replicate 1 .sleep, [], .raisedInterrupt⟩
    ∧ (List.replicate 1 Ev.sleep).countP isProgramOrFire = 0
    ∧ (List.replicate 1 Ev.sleep).countP isOutputOff = 0 := by
  refine run_sweep_countdown_interrupt (by norm_num) ?_ (by decide)
  intro m hm
  simp only [wIntrAt]
  simp only [beq_eq_false_iff_ne, ne_eq]
  omega

/-- Claim C7 witness: the amended theorem with the status query of the only
step failing (operation 9, countdown 0, onTime 1, offTime 0). -/
theorem run_sweep_status_query_failure_witness :
    run_sweep (wFailAt 9) 0 1 0 [20] 200 false =
      ⟨List.replicate 0 .sleep
          ++ (loopTrace (wFailAt 9) 1 0 200 (([20] : List ℚ).take 0) 0
            ++ bodyTraceNoStatus (wFailAt 9) 1 0 200 (([20] : List ℚ).getD 0 0)
                (0 + 0 * stepOps 1 0)),
       loopRecs (wFailAt 9) 1 0 (([20] : List ℚ).take 0) 1 0, .raisedError .protocol⟩
    ∧ (loopRecs (wFailAt 9) 1 0 (([20] : List ℚ).take 0) 1 0).length = 0
    ∧ (bodyTraceNoStatus (wFailAt 9) 1 0 200 (([20] : List ℚ).getD 0 0)
        (0 + 0 * stepOps 1 0)).countP isMeasurement = 2 := by
  refine run_sweep_status_query_failure (by norm_num) (by simp) (fun _ => rfl)
    ?_ (by decide)
  intro m hm
  simp only [stepOps, bodyOps] at hm
  simp only [wFailAt]
  simp only [beq_eq_false_iff_ne, ne_eq]
  omega

end LedCtrl
